import Mathlib

/-!
Shallow embedding of the linking engine of `globulator_linker.py`, together
with the `ParticleData` record of `globulator_core.py`.

Modelling conventions:
* Python floats are modelled as exact rationals (`ℚ`).
* `math.sqrt` and `math.pi` are modelled as components of the
  `GlobulatorLinker` record (the Python class stores `self.pi = math.pi`);
  the linking logic only ever pipes them into comparisons and stored
  values, and every theorem below is proved for an arbitrary
  interpretation of these two components.
* Python's stable `list.sort(key=...)` is modelled by a stable insertion
  sort on the distance key (same input/output behaviour as any stable
  comparison sort).
* The `used_globules` set of `link_crescents_to_globules` tracks Python
  object identity (`id(globule)`); it is modelled by the particle value
  itself, which agrees with object identity exactly when the input
  records are distinct — the theorems that depend on it carry the
  distinctness of the input lists as a hypothesis.
-/

/-- Record `ParticleData` of `globulator_core.py`: area, centroid, perimeter, and
the derived circularity stored by `__init__`. -/
structure Particle where
  area : ℚ
  x : ℚ
  y : ℚ
  perimeter : ℚ
  circularity : ℚ
deriving DecidableEq, Repr

/-- Constructor `ParticleData.__init__`: stores the four given fields unconditionally
and derives `circularity = 4·π·area/perimeter²` when `perimeter > 0`,
else `0`.  There is no validation of the geometry. -/
def mkParticleData (piQ area x y perimeter : ℚ) : Particle :=
  ⟨area, x, y, perimeter,
    if 0 < perimeter then 4 * piQ * area / perimeter ^ 2 else 0⟩

/-- Record `LinkedParticle` of `globulator_linker.py`. -/
structure LinkedParticle where
  crescent : Particle
  globule : Particle
  distance : ℚ
deriving DecidableEq, Repr

/-- Record `AmbiguousParticle` of `globulator_linker.py`; `type` is the string
`"crescent"` or `"globule"`. -/
structure AmbiguousParticle where
  particle : Particle
  type : String
deriving DecidableEq, Repr

/-- Class `GlobulatorLinker` and its `__init__`: grid cell sizes (default 50×50) and the
stored `self.pi = math.pi`; `sqrt` stands for `math.sqrt`. -/
structure GlobulatorLinker where
  map_length : ℕ
  map_width : ℕ
  pi : ℚ
  sqrt : ℚ → ℚ

/-- Method `GlobulatorLinker.calculate_distance`: Euclidean distance. -/
def calculate_distance (L : GlobulatorLinker) (x1 y1 x2 y2 : ℚ) : ℚ :=
  L.sqrt ((x1 - x2) ^ 2 + (y1 - y2) ^ 2)

/-- Method `GlobulatorLinker.calculate_radius`: radius of a circle of the given
area. -/
def calculate_radius (L : GlobulatorLinker) (area : ℚ) : ℚ :=
  L.sqrt (area / L.pi)

/-- The spatial grid built by `create_spatial_map`: its two dimensions and
the content of each cell. -/
structure SpatialMap where
  x_size : ℕ
  y_size : ℕ
  cells : ℕ → ℕ → List Particle

/-- Python expression `int(coord // cellSize)`: Python float floor-division (the quotient is
already floored, so `int` is exact). -/
def cellIndex (cellSize : ℕ) (coord : ℚ) : ℤ :=
  ⌊coord / (cellSize : ℚ)⌋

/-- Python expression `max(0, min(v, size - 1))` of `create_spatial_map`. -/
def clampIndex (v : ℤ) (size : ℕ) : ℕ :=
  (max 0 (min v ((size : ℤ) - 1))).toNat

/-- The clamped grid cell a globule is placed in by `create_spatial_map`. -/
def globCell (L : GlobulatorLinker) (x_size y_size : ℕ) (g : Particle) : ℕ × ℕ :=
  (clampIndex (cellIndex L.map_length g.x) x_size,
   clampIndex (cellIndex L.map_width g.y) y_size)

/-- One iteration of the placement loop of `create_spatial_map`:
`spatial_map[map_x][map_y].append(globule)`. -/
def placeGlobule (L : GlobulatorLinker) (x_size y_size : ℕ)
    (cells : ℕ → ℕ → List Particle) (g : Particle) : ℕ → ℕ → List Particle :=
  fun i j => if globCell L x_size y_size g = (i, j) then cells i j ++ [g] else cells i j

/-- Method `GlobulatorLinker.create_spatial_map`: dimensions
`image_width // map_length + 1` by `image_height // map_width + 1`, and
each globule appended to its clamped cell in input order. -/
def create_spatial_map (L : GlobulatorLinker) (globules : List Particle)
    (image_width image_height : ℕ) : SpatialMap :=
  let map_x_size := image_width / L.map_length + 1
  let map_y_size := image_height / L.map_width + 1
  ⟨map_x_size, map_y_size,
    globules.foldl (placeGlobule L map_x_size map_y_size) (fun _ _ => [])⟩

/-- Python `range(lo, hi + 1)` over integers (empty when `hi < lo`). -/
def intRange (lo hi : ℤ) : List ℤ :=
  (List.range (hi + 1 - lo).toNat).map (fun k : ℕ => lo + (k : ℤ))

/-- Stable insertion into a list sorted by ascending distance. -/
def insertByDist (dg : ℚ × Particle) : List (ℚ × Particle) → List (ℚ × Particle)
  | [] => [dg]
  | x :: xs => if dg.1 ≤ x.1 then dg :: x :: xs else x :: insertByDist dg xs

/-- Python `nearby_globules.sort(key=lambda x: x[0])`: stable sort by ascending
distance. -/
def sortByDist : List (ℚ × Particle) → List (ℚ × Particle)
  | [] => []
  | x :: xs => insertByDist x (sortByDist xs)

/-- Method `GlobulatorLinker.get_nearby_globules`: collect the globules of the
cells within `search_radius` of the crescent's cell (intersected with the
grid bounds), pair each with its distance to the crescent, and sort by
distance. -/
def get_nearby_globules (L : GlobulatorLinker) (crescent : Particle)
    (m : SpatialMap) (search_radius : ℤ) : List (ℚ × Particle) :=
  let map_x := cellIndex L.map_length crescent.x
  let map_y := cellIndex L.map_width crescent.y
  let min_x := max 0 (map_x - search_radius)
  let max_x := min ((m.x_size : ℤ) - 1) (map_x + search_radius)
  let min_y := max 0 (map_y - search_radius)
  let max_y := min ((m.y_size : ℤ) - 1) (map_y + search_radius)
  sortByDist ((intRange min_x max_x).flatMap (fun x =>
    (intRange min_y max_y).flatMap (fun y =>
      (m.cells x.toNat y.toNat).map (fun g =>
        (calculate_distance L crescent.x crescent.y g.x g.y, g)))))

/-- One comparison step of Python's `max(valid_globules, key=lambda x:
x[1].area)`: the current best is replaced only on a strictly larger key,
so the first maximal element wins. -/
def pyMaxStep (best dg : ℚ × Particle) : ℚ × Particle :=
  if best.2.area < dg.2.area then dg else best

/-- Python's `max` over a non-empty list `v :: l` with the area key. -/
def pyMaxFrom (v : ℚ × Particle) (l : List (ℚ × Particle)) : ℚ × Particle :=
  l.foldl pyMaxStep v

/-- Method `GlobulatorLinker.find_best_globule_for_crescent`: radius-limit filter,
area-floor filter, then the largest-area survivor. -/
def find_best_globule_for_crescent (L : GlobulatorLinker) (crescent : Particle)
    (nearby_globules : List (ℚ × Particle)) : Option (ℚ × Particle) :=
  if nearby_globules.isEmpty then none else
  let crescent_area := crescent.area
  let crescent_radius := calculate_radius L crescent_area
  let radius_limit := crescent_radius * 3
  let candidate_globules := nearby_globules.filter (fun dg => dg.1 ≤ radius_limit)
  if candidate_globules.isEmpty then none else
  let valid_globules := candidate_globules.filter
    (fun dg => (0.25 : ℚ) * crescent_area ≤ dg.2.area)
  match valid_globules with
  | [] => none
  | v :: vs => some (pyMaxFrom v vs)

/-- The loop state of `link_crescents_to_globules`: the `linked_particles`
and `ambiguous_particles` accumulators and the `used_globules` set. -/
structure LinkState where
  linked : List LinkedParticle
  ambiguous : List AmbiguousParticle
  used : List Particle

/-- One iteration of the crescent loop of `link_crescents_to_globules`. -/
def linkStep (L : GlobulatorLinker) (m : SpatialMap) (st : LinkState)
    (crescent : Particle) : LinkState :=
  let nearby := get_nearby_globules L crescent m 1
  let available := nearby.filter (fun dg => dg.2 ∉ st.used)
  match find_best_globule_for_crescent L crescent available with
  | some (d, g) => ⟨st.linked ++ [⟨crescent, g, d⟩], st.ambiguous, st.used ++ [g]⟩
  | none => ⟨st.linked, st.ambiguous ++ [⟨crescent, "crescent"⟩], st.used⟩

/-- Method `GlobulatorLinker.link_crescents_to_globules`. -/
def link_crescents_to_globules (L : GlobulatorLinker)
    (crescents globules : List Particle)
    (image_width image_height : ℕ) : List LinkedParticle × List AmbiguousParticle :=
  let m := create_spatial_map L globules image_width image_height
  let final := crescents.foldl (linkStep L m) ⟨[], [], []⟩
  (final.linked,
   final.ambiguous ++
     (globules.filter (fun g => g ∉ final.used)).map (fun g => ⟨g, "globule"⟩))

/-- The dictionary returned by `calculate_statistics`. -/
structure Stats where
  total_globules : ℕ
  total_crescents : ℕ
  linked_pairs : ℕ
  globule_with_crescent_percent : ℚ
  average_crescent_area : ℚ
  average_globule_area : ℚ
deriving DecidableEq, Repr

/-- Method `GlobulatorLinker.calculate_statistics`. -/
def calculate_statistics (linked_particles : List LinkedParticle)
    (total_globules total_crescents : ℕ) : Stats :=
  if total_globules = 0 then
    ⟨0, total_crescents, 0, 0, 0, 0⟩
  else
    let linked_count := linked_particles.length
    ⟨total_globules, total_crescents, linked_count,
     ((linked_count : ℚ) / (total_globules : ℚ)) * 100,
     if 0 < linked_count then
       ((linked_particles.map (fun lp => lp.crescent.area)).sum) / (linked_count : ℚ)
     else 0,
     if 0 < linked_count then
       ((linked_particles.map (fun lp => lp.globule.area)).sum) / (linked_count : ℚ)
     else 0⟩

set_option maxRecDepth 100000

/-! ### Basic lemmas about the sorting and range helpers -/

/-- The distance key ordering used by the sort. -/
def distLE (a b : ℚ × Particle) : Prop := a.1 ≤ b.1

theorem insertByDist_perm (dg : ℚ × Particle) (l : List (ℚ × Particle)) :
    (insertByDist dg l).Perm (dg :: l) := by
  induction l with
  | nil => simp [insertByDist]
  | cons x xs ih =>
    simp only [insertByDist]
    split
    · exact List.Perm.refl _
    · exact ((ih.cons x).trans (List.Perm.swap dg x xs))

theorem sortByDist_perm (l : List (ℚ × Particle)) : (sortByDist l).Perm l := by
  induction l with
  | nil => simp [sortByDist]
  | cons x xs ih =>
    simpa [sortByDist] using (insertByDist_perm x (sortByDist xs)).trans (ih.cons x)

theorem mem_sortByDist {dg : ℚ × Particle} {l : List (ℚ × Particle)} :
    dg ∈ sortByDist l ↔ dg ∈ l :=
  (sortByDist_perm l).mem_iff

theorem insertByDist_sorted {dg : ℚ × Particle} {l : List (ℚ × Particle)}
    (h : l.Pairwise distLE) : (insertByDist dg l).Pairwise distLE := by
  induction l with
  | nil => simp [insertByDist, distLE]
  | cons x xs ih =>
    rw [List.pairwise_cons] at h
    simp only [insertByDist]
    split
    · rename_i hle
      refine List.pairwise_cons.2 ⟨?_, List.pairwise_cons.2 ⟨h.1, h.2⟩⟩
      intro a ha
      rcases List.mem_cons.1 ha with rfl | ha
      · exact hle
      · exact le_trans hle (h.1 a ha)
    · rename_i hgt
      refine List.pairwise_cons.2 ⟨?_, ih h.2⟩
      intro a ha
      rcases List.mem_cons.1 ((insertByDist_perm dg xs).mem_iff.1 ha) with rfl | h'
      · exact le_of_lt (lt_of_not_le hgt)
      · exact h.1 a h'

theorem sortByDist_sorted (l : List (ℚ × Particle)) : (sortByDist l).Pairwise distLE := by
  induction l with
  | nil => simp [sortByDist]
  | cons x xs ih => exact insertByDist_sorted ih

theorem mem_intRange {lo hi x : ℤ} : x ∈ intRange lo hi ↔ lo ≤ x ∧ x ≤ hi := by
  simp only [intRange, List.mem_map, List.mem_range]
  constructor
  · rintro ⟨k, hk, rfl⟩
    have hk2 : (k : ℤ) < hi + 1 - lo := Int.lt_toNat.mp hk
    omega
  · rintro ⟨h1, h2⟩
    refine ⟨(x - lo).toNat, Int.lt_toNat.mpr (by omega), ?_⟩
    have h3 := Int.toNat_of_nonneg (show (0 : ℤ) ≤ x - lo by omega)
    omega

/-! ### The spatial map cells -/

theorem foldl_placeGlobule (L : GlobulatorLinker) (x_size y_size : ℕ)
    (gs : List Particle) :
    ∀ (init : ℕ → ℕ → List Particle) (i j : ℕ),
      (gs.foldl (placeGlobule L x_size y_size) init) i j =
        init i j ++ gs.filter (fun g => globCell L x_size y_size g = (i, j)) := by
  induction gs with
  | nil => intro init i j; simp
  | cons g gs ih =>
    intro init i j
    rw [List.foldl_cons, ih, List.filter_cons]
    simp only [placeGlobule]
    by_cases hc : globCell L x_size y_size g = (i, j)
    · simp [hc, List.append_assoc]
    · simp [hc]

theorem create_spatial_map_cells (L : GlobulatorLinker) (globules : List Particle)
    (W H : ℕ) (i j : ℕ) :
    (create_spatial_map L globules W H).cells i j =
      globules.filter
        (fun g => globCell L (W / L.map_length + 1) (H / L.map_width + 1) g = (i, j)) := by
  simp [create_spatial_map, foldl_placeGlobule]

theorem create_spatial_map_sizes (L : GlobulatorLinker) (globules : List Particle)
    (W H : ℕ) :
    (create_spatial_map L globules W H).x_size = W / L.map_length + 1 ∧
      (create_spatial_map L globules W H).y_size = H / L.map_width + 1 := by
  constructor <;> rfl

/-! ### Membership in the neighbourhood query -/

theorem mem_get_nearby {L : GlobulatorLinker} {c : Particle} {m : SpatialMap}
    {r : ℤ} {dg : ℚ × Particle} :
    dg ∈ get_nearby_globules L c m r ↔
      ∃ x y : ℤ,
        (max 0 (cellIndex L.map_length c.x - r) ≤ x ∧
          x ≤ min ((m.x_size : ℤ) - 1) (cellIndex L.map_length c.x + r)) ∧
        (max 0 (cellIndex L.map_width c.y - r) ≤ y ∧
          y ≤ min ((m.y_size : ℤ) - 1) (cellIndex L.map_width c.y + r)) ∧
        dg.2 ∈ m.cells x.toNat y.toNat ∧
        dg.1 = calculate_distance L c.x c.y dg.2.x dg.2.y := by
  simp only [get_nearby_globules, mem_sortByDist, List.mem_flatMap, List.mem_map,
    mem_intRange]
  constructor
  · rintro ⟨x, hx, y, hy, g, hg, rfl⟩
    exact ⟨x, y, hx, hy, hg, rfl⟩
  · rintro ⟨x, y, hx, hy, hg, hd⟩
    refine ⟨x, hx, y, hy, dg.2, hg, ?_⟩
    rw [← hd]

/-! ### Python `max` with the area key: first maximal element wins -/

theorem pyMaxFrom_eq_or_mem (v : ℚ × Particle) (l : List (ℚ × Particle)) :
    pyMaxFrom v l = v ∨ pyMaxFrom v l ∈ l := by
  induction l generalizing v with
  | nil => exact Or.inl rfl
  | cons w ws ih =>
    have hred : pyMaxFrom v (w :: ws) = pyMaxFrom (pyMaxStep v w) ws := rfl
    rw [hred]
    rcases ih (pyMaxStep v w) with h | h
    · rw [h]
      unfold pyMaxStep
      split
      · exact Or.inr (List.mem_cons_self _ _)
      · exact Or.inl rfl
    · exact Or.inr (List.mem_cons_of_mem _ h)

theorem pyMaxFrom_area_le (v : ℚ × Particle) (l : List (ℚ × Particle)) :
    v.2.area ≤ (pyMaxFrom v l).2.area ∧
      ∀ x ∈ l, x.2.area ≤ (pyMaxFrom v l).2.area := by
  induction l generalizing v with
  | nil => exact ⟨le_refl _, by simp⟩
  | cons w ws ih =>
    have hred : pyMaxFrom v (w :: ws) = pyMaxFrom (pyMaxStep v w) ws := rfl
    rw [hred]
    obtain ⟨h1, h2⟩ := ih (pyMaxStep v w)
    have hv : v.2.area ≤ (pyMaxStep v w).2.area := by
      unfold pyMaxStep; split
      · exact le_of_lt (by assumption)
      · exact le_refl _
    have hw : w.2.area ≤ (pyMaxStep v w).2.area := by
      unfold pyMaxStep; split
      · exact le_refl _
      · exact le_of_not_lt (by assumption)
    refine ⟨le_trans hv h1, ?_⟩
    intro x hx
    rcases List.mem_cons.1 hx with rfl | hx
    · exact le_trans hw h1
    · exact h2 x hx

theorem pyMaxFrom_first_max (v : ℚ × Particle) (l : List (ℚ × Particle)) :
    ∃ pre post, v :: l = pre ++ (pyMaxFrom v l) :: post ∧
      (∀ x ∈ pre, x.2.area < (pyMaxFrom v l).2.area) ∧
      (∀ x ∈ post, x.2.area ≤ (pyMaxFrom v l).2.area) := by
  induction l generalizing v with
  | nil => exact ⟨[], [], rfl, by simp, by simp⟩
  | cons w ws ih =>
    have hred : pyMaxFrom v (w :: ws) = pyMaxFrom (pyMaxStep v w) ws := rfl
    by_cases hlt : v.2.area < w.2.area
    · have hstep : pyMaxStep v w = w := by simp [pyMaxStep, hlt]
      rw [hred, hstep]
      obtain ⟨pre, post, hdecomp, hpre, hpost⟩ := ih w
      refine ⟨v :: pre, post, ?_, ?_, hpost⟩
      · rw [List.cons_append, ← hdecomp]
      · intro x hx
        rcases List.mem_cons.1 hx with rfl | hx
        · exact lt_of_lt_of_le hlt (pyMaxFrom_area_le w ws).1
        · exact hpre x hx
    · have hstep : pyMaxStep v w = v := by simp [pyMaxStep, hlt]
      rw [hred, hstep]
      obtain ⟨pre, post, hdecomp, hpre, hpost⟩ := ih v
      cases pre with
      | nil =>
        simp only [List.nil_append] at hdecomp
        obtain ⟨hv', hws'⟩ := List.cons.inj hdecomp
        have hv : pyMaxFrom v ws = v := hv'.symm
        have hws : post = ws := hws'.symm
        refine ⟨[], w :: ws, by rw [hv]; rfl, by simp, ?_⟩
        intro x hx
        rcases List.mem_cons.1 hx with rfl | hx
        · rw [hv]; exact le_of_not_lt hlt
        · have := hpost x (by rw [hws]; exact hx)
          exact this
      | cons p ps =>
        simp only [List.cons_append] at hdecomp
        obtain ⟨hp', hws⟩ := List.cons.inj hdecomp
        have hp : p = v := hp'.symm
        refine ⟨v :: w :: ps, post, ?_, ?_, hpost⟩
        · rw [List.cons_append, List.cons_append, ← hws]
        · intro x hx
          have hvlt : v.2.area < (pyMaxFrom v ws).2.area := by
            have := hpre p (List.mem_cons_self _ _)
            rw [hp] at this
            exact this
          rcases List.mem_cons.1 hx with rfl | hx
          · exact hvlt
          · rcases List.mem_cons.1 hx with rfl | hx
            · exact lt_of_le_of_lt (le_of_not_lt hlt) hvlt
            · exact hpre x (List.mem_cons_of_mem _ hx)

/-! ### Characterisation of the matcher -/

/-- The radius-limit filter predicate of `find_best_globule_for_crescent`. -/
def withinRadius (L : GlobulatorLinker) (c : Particle) (dg : ℚ × Particle) : Prop :=
  dg.1 ≤ calculate_radius L c.area * 3

instance (L c dg) : Decidable (withinRadius L c dg) := by
  unfold withinRadius; infer_instance

/-- The area-floor filter predicate of `find_best_globule_for_crescent`. -/
def areaFloor (c : Particle) (dg : ℚ × Particle) : Prop :=
  (0.25 : ℚ) * c.area ≤ dg.2.area

instance (c dg) : Decidable (areaFloor c dg) := by
  unfold areaFloor; infer_instance

/-- The list of candidates surviving both filters, in input order. -/
def survivors (L : GlobulatorLinker) (c : Particle)
    (nb : List (ℚ × Particle)) : List (ℚ × Particle) :=
  (nb.filter (fun dg => withinRadius L c dg)).filter (fun dg => areaFloor c dg)

theorem find_best_eq (L : GlobulatorLinker) (c : Particle) (nb : List (ℚ × Particle)) :
    find_best_globule_for_crescent L c nb =
      match survivors L c nb with
      | [] => none
      | v :: vs => some (pyMaxFrom v vs) := by
  unfold find_best_globule_for_crescent survivors withinRadius areaFloor
  dsimp only
  split
  · rename_i h
    rw [List.isEmpty_iff] at h
    subst h
    rfl
  · split
    · rename_i h
      rw [List.isEmpty_iff] at h
      rw [h]
      rfl
    · rfl

theorem mem_survivors {L : GlobulatorLinker} {c : Particle} {nb : List (ℚ × Particle)}
    {dg : ℚ × Particle} :
    dg ∈ survivors L c nb ↔ dg ∈ nb ∧ withinRadius L c dg ∧ areaFloor c dg := by
  simp only [survivors, List.mem_filter, decide_eq_true_eq]
  tauto

theorem find_best_some_survivor {L : GlobulatorLinker} {c : Particle}
    {nb : List (ℚ × Particle)} {dg : ℚ × Particle}
    (h : find_best_globule_for_crescent L c nb = some dg) :
    dg ∈ survivors L c nb := by
  rw [find_best_eq] at h
  rcases hval : survivors L c nb with _ | ⟨v, vs⟩
  · rw [hval] at h; cases h
  · rw [hval] at h
    have hmax : pyMaxFrom v vs = dg := Option.some.inj h
    rw [← hmax]
    rcases pyMaxFrom_eq_or_mem v vs with h' | h'
    · rw [h']; exact List.mem_cons_self _ _
    · exact List.mem_cons_of_mem _ h'

theorem find_best_some_max {L : GlobulatorLinker} {c : Particle}
    {nb : List (ℚ × Particle)} {dg : ℚ × Particle}
    (h : find_best_globule_for_crescent L c nb = some dg) :
    ∀ x ∈ survivors L c nb, x.2.area ≤ dg.2.area := by
  rw [find_best_eq] at h
  rcases hval : survivors L c nb with _ | ⟨v, vs⟩
  · rw [hval] at h; cases h
  · rw [hval] at h
    have hmax : pyMaxFrom v vs = dg := Option.some.inj h
    intro x hx
    rw [← hmax]
    rcases List.mem_cons.1 hx with rfl | hx
    · exact (pyMaxFrom_area_le x vs).1
    · exact (pyMaxFrom_area_le v vs).2 x hx

theorem find_best_none_iff {L : GlobulatorLinker} {c : Particle}
    {nb : List (ℚ × Particle)} :
    find_best_globule_for_crescent L c nb = none ↔ survivors L c nb = [] := by
  rw [find_best_eq]
  rcases hval : survivors L c nb with _ | ⟨v, vs⟩ <;> simp

/-! ### The linking loop -/

theorem linkStep_eq (L : GlobulatorLinker) (m : SpatialMap) (st : LinkState)
    (c : Particle) :
    linkStep L m st c =
      match find_best_globule_for_crescent L c
          ((get_nearby_globules L c m 1).filter (fun dg => dg.2 ∉ st.used)) with
      | some (d, g) => ⟨st.linked ++ [⟨c, g, d⟩], st.ambiguous, st.used ++ [g]⟩
      | none => ⟨st.linked, st.ambiguous ++ [⟨c, "crescent"⟩], st.used⟩ := rfl

theorem mem_nearby_create {L : GlobulatorLinker} {globs : List Particle}
    {W H : ℕ} {c : Particle} {r : ℤ} {dg : ℚ × Particle}
    (h : dg ∈ get_nearby_globules L c (create_spatial_map L globs W H) r) :
    dg.2 ∈ globs := by
  obtain ⟨x, y, _, _, hcell, _⟩ := mem_get_nearby.1 h
  rw [create_spatial_map_cells] at hcell
  exact (List.mem_filter.1 hcell).1

theorem find_best_avail_not_used {L : GlobulatorLinker} {m : SpatialMap}
    {used : List Particle} {c : Particle} {d : ℚ} {g : Particle}
    (h : find_best_globule_for_crescent L c
        ((get_nearby_globules L c m 1).filter (fun dg => dg.2 ∉ used)) = some (d, g)) :
    (d, g) ∈ get_nearby_globules L c m 1 ∧ g ∉ used := by
  have hmem := (mem_survivors.1 (find_best_some_survivor h)).1
  have := List.mem_filter.1 hmem
  refine ⟨this.1, ?_⟩
  have := this.2
  simpa using this

theorem loop_used_eq_map (L : GlobulatorLinker) (m : SpatialMap)
    (cres : List Particle) :
    ∀ st : LinkState, st.used = st.linked.map (fun lp => lp.globule) →
      (cres.foldl (linkStep L m) st).used =
        (cres.foldl (linkStep L m) st).linked.map (fun lp => lp.globule) := by
  induction cres with
  | nil => intro st h; exact h
  | cons c cs ih =>
    intro st h
    rw [List.foldl_cons]
    apply ih
    rw [linkStep_eq]
    rcases hfb : find_best_globule_for_crescent L c
        ((get_nearby_globules L c m 1).filter (fun dg => dg.2 ∉ st.used)) with _ | ⟨d, g⟩
    · exact h
    · simp [h]

theorem loop_used_nodup (L : GlobulatorLinker) (m : SpatialMap)
    (cres : List Particle) :
    ∀ st : LinkState, st.used.Nodup → (cres.foldl (linkStep L m) st).used.Nodup := by
  induction cres with
  | nil => intro st h; exact h
  | cons c cs ih =>
    intro st h
    rw [List.foldl_cons]
    apply ih
    rw [linkStep_eq]
    rcases hfb : find_best_globule_for_crescent L c
        ((get_nearby_globules L c m 1).filter (fun dg => dg.2 ∉ st.used)) with _ | ⟨d, g⟩
    · exact h
    · have hnm := (find_best_avail_not_used hfb).2
      simp [List.nodup_append, h, hnm]

theorem loop_used_mem (L : GlobulatorLinker) (globs : List Particle) (W H : ℕ)
    (cres : List Particle) :
    ∀ st : LinkState, (∀ g ∈ st.used, g ∈ globs) →
      ∀ g ∈ (cres.foldl (linkStep L (create_spatial_map L globs W H)) st).used,
        g ∈ globs := by
  induction cres with
  | nil => intro st h; exact h
  | cons c cs ih =>
    intro st h
    rw [List.foldl_cons]
    apply ih
    rw [linkStep_eq]
    rcases hfb : find_best_globule_for_crescent L c
        ((get_nearby_globules L c (create_spatial_map L globs W H) 1).filter
          (fun dg => dg.2 ∉ st.used)) with _ | ⟨d, g⟩
    · exact h
    · intro x hx
      rcases List.mem_append.1 hx with hx | hx
      · exact h x hx
      · rw [List.mem_singleton] at hx
        subst hx
        exact mem_nearby_create (find_best_avail_not_used hfb).1

theorem loop_lengths (L : GlobulatorLinker) (m : SpatialMap) (cres : List Particle) :
    ∀ st : LinkState,
      (cres.foldl (linkStep L m) st).linked.length +
          (cres.foldl (linkStep L m) st).ambiguous.countP (fun a => a.type = "crescent") =
        st.linked.length + st.ambiguous.countP (fun a => a.type = "crescent") +
          cres.length := by
  induction cres with
  | nil => intro st; simp
  | cons c cs ih =>
    intro st
    rw [List.foldl_cons, ih]
    rw [linkStep_eq]
    rcases hfb : find_best_globule_for_crescent L c
        ((get_nearby_globules L c m 1).filter (fun dg => dg.2 ∉ st.used)) with _ | ⟨d, g⟩
    · simp only [List.length_cons, List.countP_append]
      simp [List.countP_cons]
      omega
    · simp only [List.length_cons, List.length_append, List.length_cons, List.length_nil]
      omega

theorem loop_amb_countP (L : GlobulatorLinker) (m : SpatialMap)
    (p : AmbiguousParticle → Bool)
    (hp : ∀ c : Particle, p ⟨c, "crescent"⟩ = false) (cres : List Particle) :
    ∀ st : LinkState,
      (cres.foldl (linkStep L m) st).ambiguous.countP p = st.ambiguous.countP p := by
  induction cres with
  | nil => intro st; rfl
  | cons c cs ih =>
    intro st
    rw [List.foldl_cons, ih]
    rw [linkStep_eq]
    rcases hfb : find_best_globule_for_crescent L c
        ((get_nearby_globules L c m 1).filter (fun dg => dg.2 ∉ st.used)) with _ | ⟨d, g⟩
    · simp [List.countP_append, List.countP_cons, hp c]
    · rfl

theorem loop_counts (L : GlobulatorLinker) (m : SpatialMap) (c0 : Particle)
    (cres : List Particle) :
    ∀ st : LinkState,
      (cres.foldl (linkStep L m) st).linked.countP (fun lp => lp.crescent = c0) +
          (cres.foldl (linkStep L m) st).ambiguous.countP
            (fun a => a.particle = c0 ∧ a.type = "crescent") =
        st.linked.countP (fun lp => lp.crescent = c0) +
          st.ambiguous.countP (fun a => a.particle = c0 ∧ a.type = "crescent") +
          cres.countP (fun x => x = c0) := by
  induction cres with
  | nil => intro st; simp
  | cons c cs ih =>
    intro st
    rw [List.foldl_cons, ih, List.countP_cons]
    rw [linkStep_eq]
    rcases hfb : find_best_globule_for_crescent L c
        ((get_nearby_globules L c m 1).filter (fun dg => dg.2 ∉ st.used)) with _ | ⟨d, g⟩
    · simp only [List.countP_append, List.countP_cons, List.countP_nil]
      by_cases hc : c = c0
      · simp [hc]
        omega
      · simp [hc]
    · simp only [List.countP_append, List.countP_cons, List.countP_nil]
      by_cases hc : c = c0
      · simp [hc]
        omega
      · simp [hc]

theorem loop_linked_prop (L : GlobulatorLinker) (m : SpatialMap)
    (P : LinkedParticle → Prop)
    (hstep : ∀ (used : List Particle) (c : Particle) (d : ℚ) (g : Particle),
      find_best_globule_for_crescent L c
          ((get_nearby_globules L c m 1).filter (fun dg => dg.2 ∉ used)) = some (d, g) →
      P ⟨c, g, d⟩) (cres : List Particle) :
    ∀ st : LinkState, (∀ lp ∈ st.linked, P lp) →
      ∀ lp ∈ (cres.foldl (linkStep L m) st).linked, P lp := by
  induction cres with
  | nil => intro st h; exact h
  | cons c cs ih =>
    intro st h
    rw [List.foldl_cons]
    apply ih
    rw [linkStep_eq]
    rcases hfb : find_best_globule_for_crescent L c
        ((get_nearby_globules L c m 1).filter (fun dg => dg.2 ∉ st.used)) with _ | ⟨d, g⟩
    · exact h
    · intro lp hlp
      rcases List.mem_append.1 hlp with hlp | hlp
      · exact h lp hlp
      · rw [List.mem_singleton] at hlp
        subst hlp
        exact hstep st.used c d g hfb

/-! ### Counting helpers -/

theorem countP_eq_one_of_nodup_mem {α : Type} [DecidableEq α] {l : List α}
    (hl : l.Nodup) {a : α} (ha : a ∈ l) : l.countP (fun x => x = a) = 1 := by
  induction l with
  | nil => cases ha
  | cons b bs ih =>
    obtain ⟨hb, hbs⟩ := List.nodup_cons.1 hl
    rw [List.countP_cons]
    rcases List.mem_cons.1 ha with heq | ha2
    · have h0 : bs.countP (fun x => x = a) = 0 := by
        apply List.countP_eq_zero.2
        intro x hx
        simp only [decide_eq_true_eq]
        rintro rfl
        exact hb (heq ▸ hx)
      simp [h0, heq.symm]
    · have hne : ¬ b = a := by
        rintro rfl
        exact hb ha2
      simp [ih hbs ha2, hne]

theorem filter_partition_length {α : Type} (p : α → Bool) (l : List α) :
    (l.filter p).length + (l.filter (fun a => ! p a)).length = l.length := by
  induction l with
  | nil => rfl
  | cons a as ih =>
    rcases hpa : p a with _ | _ <;> simp [List.filter_cons, hpa, ← ih] <;> omega

theorem length_filter_not_mem {used globs : List Particle} (hg : globs.Nodup)
    (hu : used.Nodup) (hsub : ∀ g ∈ used, g ∈ globs) :
    used.length + (globs.filter (fun g => g ∉ used)).length = globs.length := by
  have hperm : (globs.filter (fun g => g ∈ used)).Perm used := by
    rw [List.perm_ext_iff_of_nodup (hg.filter _) hu]
    intro a
    simp only [List.mem_filter, decide_eq_true_eq]
    constructor
    · rintro ⟨_, h⟩; exact h
    · intro h; exact ⟨hsub a h, h⟩
  have hcong : globs.filter (fun g => g ∉ used) =
      globs.filter (fun a => ! (a ∈ used : Bool)) := by
    apply List.filter_congr
    intro x _
    simp [decide_not]
  rw [hcong, ← hperm.length_eq, filter_partition_length]

/-! ### Claim theorems: conservation, exclusivity -/

theorem link_eq (L : GlobulatorLinker) (crescents globules : List Particle)
    (W H : ℕ) :
    link_crescents_to_globules L crescents globules W H =
      ((crescents.foldl (linkStep L (create_spatial_map L globules W H))
          ⟨[], [], []⟩).linked,
        (crescents.foldl (linkStep L (create_spatial_map L globules W H))
          ⟨[], [], []⟩).ambiguous ++
          (globules.filter (fun g => g ∉ (crescents.foldl
            (linkStep L (create_spatial_map L globules W H)) ⟨[], [], []⟩).used)).map
            (fun g => ⟨g, "globule"⟩)) := rfl

/-- C1: for distinct input records, `link_crescents_to_globules` conserves
both sides (`|pairs| + |ambiguous crescents| = |crescents|`,
`|pairs| + |ambiguous globules| = |globules|`), every input particle
appears exactly once across the pairs and ambiguous lists (in its role),
and no globule appears in more than one `LinkedParticle`. -/
theorem conservation_and_exclusivity (L : GlobulatorLinker)
    (crescents globules : List Particle) (W H : ℕ)
    (hc : crescents.Nodup) (hg : globules.Nodup) :
    (link_crescents_to_globules L crescents globules W H).1.length +
        (link_crescents_to_globules L crescents globules W H).2.countP
          (fun a => a.type = "crescent") = crescents.length ∧
    (link_crescents_to_globules L crescents globules W H).1.length +
        (link_crescents_to_globules L crescents globules W H).2.countP
          (fun a => a.type = "globule") = globules.length ∧
    (∀ c0 ∈ crescents,
      (link_crescents_to_globules L crescents globules W H).1.countP
          (fun lp => lp.crescent = c0) +
        (link_crescents_to_globules L crescents globules W H).2.countP
          (fun a => a.particle = c0 ∧ a.type = "crescent") = 1) ∧
    (∀ g0 ∈ globules,
      (link_crescents_to_globules L crescents globules W H).1.countP
          (fun lp => lp.globule = g0) +
        (link_crescents_to_globules L crescents globules W H).2.countP
          (fun a => a.particle = g0 ∧ a.type = "globule") = 1) ∧
    ((link_crescents_to_globules L crescents globules W H).1.map
      (fun lp => lp.globule)).Nodup := by
  have hused := loop_used_eq_map L (create_spatial_map L globules W H) crescents
    ⟨[], [], []⟩ rfl
  have hnodup := loop_used_nodup L (create_spatial_map L globules W H) crescents
    ⟨[], [], []⟩ (by simp)
  have hsub := loop_used_mem L globules W H crescents ⟨[], [], []⟩ (by simp)
  simp only [link_eq]
  refine ⟨?_, ?_, ?_, ?_, ?_⟩
  · rw [List.countP_append]
    have h0 : ((globules.filter (fun g => g ∉ (crescents.foldl
          (linkStep L (create_spatial_map L globules W H)) ⟨[], [], []⟩).used)).map
        (fun g => (⟨g, "globule"⟩ : AmbiguousParticle))).countP
          (fun a => a.type = "crescent") = 0 := by
      rw [List.countP_map]
      apply List.countP_eq_zero.2
      intro a _
      simp
    rw [h0]
    have hlen := loop_lengths L (create_spatial_map L globules W H) crescents
      ⟨[], [], []⟩
    simpa using hlen
  · rw [List.countP_append]
    have h0 : (crescents.foldl (linkStep L (create_spatial_map L globules W H))
        ⟨[], [], []⟩).ambiguous.countP (fun a => a.type = "globule") = 0 := by
      have := loop_amb_countP L (create_spatial_map L globules W H)
        (fun a => a.type = "globule") (fun c => by simp) crescents ⟨[], [], []⟩
      simpa using this
    have h1 : ((globules.filter (fun g => g ∉ (crescents.foldl
          (linkStep L (create_spatial_map L globules W H)) ⟨[], [], []⟩).used)).map
        (fun g => (⟨g, "globule"⟩ : AmbiguousParticle))).countP
          (fun a => a.type = "globule") =
        (globules.filter (fun g => g ∉ (crescents.foldl
          (linkStep L (create_spatial_map L globules W H)) ⟨[], [], []⟩).used)).length := by
      rw [List.countP_map]
      exact List.countP_eq_length.2 (by intro a _; simp)
    have h2 : (crescents.foldl (linkStep L (create_spatial_map L globules W H))
        ⟨[], [], []⟩).linked.length = (crescents.foldl
          (linkStep L (create_spatial_map L globules W H)) ⟨[], [], []⟩).used.length := by
      rw [hused, List.length_map]
    rw [h0, h1, h2]
    have := length_filter_not_mem hg hnodup hsub
    omega
  · intro c0 hc0
    rw [List.countP_append]
    have h0 : ((globules.filter (fun g => g ∉ (crescents.foldl
          (linkStep L (create_spatial_map L globules W H)) ⟨[], [], []⟩).used)).map
        (fun g => (⟨g, "globule"⟩ : AmbiguousParticle))).countP
          (fun a => a.particle = c0 ∧ a.type = "crescent") = 0 := by
      rw [List.countP_map]
      apply List.countP_eq_zero.2
      intro a _
      simp
    rw [h0]
    have hcnt := loop_counts L (create_spatial_map L globules W H) c0 crescents
      ⟨[], [], []⟩
    have hone : crescents.countP (fun x => x = c0) = 1 :=
      countP_eq_one_of_nodup_mem hc hc0
    simp only [List.countP_nil, List.length_nil] at hcnt
    omega
  · intro g0 hg0
    rw [List.countP_append]
    have hlinkcnt : (crescents.foldl (linkStep L (create_spatial_map L globules W H))
          ⟨[], [], []⟩).linked.countP (fun lp => lp.globule = g0) =
        (crescents.foldl (linkStep L (create_spatial_map L globules W H))
          ⟨[], [], []⟩).used.countP (fun x => x = g0) := by
      rw [hused, List.countP_map]
      rfl
    have hamb0 : (crescents.foldl (linkStep L (create_spatial_map L globules W H))
        ⟨[], [], []⟩).ambiguous.countP
          (fun a => a.particle = g0 ∧ a.type = "globule") = 0 := by
      have := loop_amb_countP L (create_spatial_map L globules W H)
        (fun a => a.particle = g0 ∧ a.type = "globule") (fun c => by simp)
        crescents ⟨[], [], []⟩
      simpa using this
    have hmapcnt : ((globules.filter (fun g => g ∉ (crescents.foldl
          (linkStep L (create_spatial_map L globules W H)) ⟨[], [], []⟩).used)).map
        (fun g => (⟨g, "globule"⟩ : AmbiguousParticle))).countP
          (fun a => a.particle = g0 ∧ a.type = "globule") =
        (globules.filter (fun g => g ∉ (crescents.foldl
          (linkStep L (create_spatial_map L globules W H)) ⟨[], [], []⟩).used)).countP
          (fun x => x = g0) := by
      rw [List.countP_map]
      apply List.countP_congr
      intro x _
      simp
    rw [hlinkcnt, hamb0, hmapcnt]
    by_cases hmem : g0 ∈ (crescents.foldl
        (linkStep L (create_spatial_map L globules W H)) ⟨[], [], []⟩).used
    · have h1 : (crescents.foldl (linkStep L (create_spatial_map L globules W H))
          ⟨[], [], []⟩).used.countP (fun x => x = g0) = 1 :=
        countP_eq_one_of_nodup_mem hnodup hmem
      have h2 : (globules.filter (fun g => g ∉ (crescents.foldl
          (linkStep L (create_spatial_map L globules W H)) ⟨[], [], []⟩).used)).countP
            (fun x => x = g0) = 0 := by
        apply List.countP_eq_zero.2
        intro a ha
        have := (List.mem_filter.1 ha).2
        simp only [decide_eq_true_eq] at this ⊢
        rintro rfl
        exact this hmem
      omega
    · have h1 : (crescents.foldl (linkStep L (create_spatial_map L globules W H))
          ⟨[], [], []⟩).used.countP (fun x => x = g0) = 0 := by
        apply List.countP_eq_zero.2
        intro a ha
        simp only [decide_eq_true_eq]
        rintro rfl
        exact hmem ha
      have h2 : (globules.filter (fun g => g ∉ (crescents.foldl
          (linkStep L (create_spatial_map L globules W H)) ⟨[], [], []⟩).used)).countP
            (fun x => x = g0) = 1 := by
        rw [List.countP_filter]
        rw [List.countP_congr (q := fun x => x = g0) ?_]
        · exact countP_eq_one_of_nodup_mem hg hg0
        · intro x _
          simp only [Bool.and_eq_true, decide_eq_true_eq]
          constructor
          · rintro ⟨h, _⟩; exact h
          · rintro rfl; exact ⟨rfl, hmem⟩
      omega
  · rw [← hused]
    exact hnodup

/-- C2: every pair emitted by `link_crescents_to_globules` stores a distance
of at most `3 · sqrt(crescent.area / π)` — no crescent is linked to a
globule farther than three crescent radii away. -/
theorem linked_pair_radius_bound (L : GlobulatorLinker)
    (crescents globules : List Particle) (W H : ℕ) :
    ∀ lp ∈ (link_crescents_to_globules L crescents globules W H).1,
      lp.distance ≤ 3 * L.sqrt (lp.crescent.area / L.pi) := by
  simp only [link_eq]
  refine loop_linked_prop L (create_spatial_map L globules W H)
    (fun lp => lp.distance ≤ 3 * L.sqrt (lp.crescent.area / L.pi)) ?_ crescents
    ⟨[], [], []⟩ (by simp)
  intro used c d g hfb
  have hw := (mem_survivors.1 (find_best_some_survivor hfb)).2.1
  unfold withinRadius calculate_radius at hw
  dsimp at hw ⊢
  linarith

/-- C3: every pair emitted by `link_crescents_to_globules` satisfies the
area floor: the globule's area is at least a quarter of the crescent's. -/
theorem linked_pair_area_floor (L : GlobulatorLinker)
    (crescents globules : List Particle) (W H : ℕ) :
    ∀ lp ∈ (link_crescents_to_globules L crescents globules W H).1,
      lp.globule.area ≥ (0.25 : ℚ) * lp.crescent.area := by
  simp only [link_eq]
  refine loop_linked_prop L (create_spatial_map L globules W H)
    (fun lp => lp.globule.area ≥ (0.25 : ℚ) * lp.crescent.area) ?_ crescents
    ⟨[], [], []⟩ (by simp)
  intro used c d g hfb
  have ha := (mem_survivors.1 (find_best_some_survivor hfb)).2.2
  unfold areaFloor at ha
  exact ha

/-- C4: whenever `find_best_globule_for_crescent` returns a match, the
returned globule is itself a survivor of the radius-limit and area-floor
filters and has the largest area among all such survivors; and it returns
no match exactly when no candidate survives both filters. -/
theorem find_best_globule_spec (L : GlobulatorLinker) (c : Particle)
    (nb : List (ℚ × Particle)) :
    (∀ (d : ℚ) (g : Particle),
      find_best_globule_for_crescent L c nb = some (d, g) →
        (d, g) ∈ survivors L c nb ∧
        ∀ x ∈ survivors L c nb, x.2.area ≤ g.area) ∧
    (find_best_globule_for_crescent L c nb = none ↔ survivors L c nb = []) :=
  ⟨fun _ _ h => ⟨find_best_some_survivor h, fun x hx => find_best_some_max h x hx⟩,
    find_best_none_iff⟩

/-- C9: `get_nearby_globules` returns its candidates sorted by ascending
distance, and when the candidates are sorted by ascending distance the
match returned by `find_best_globule_for_crescent` is, among the maximal-
area survivors, the one with the smallest distance (the first-encountered
maximum). -/
theorem find_best_tie_break (L : GlobulatorLinker) :
    (∀ (c : Particle) (m : SpatialMap) (r : ℤ),
      (get_nearby_globules L c m r).Pairwise distLE) ∧
    (∀ (c : Particle) (nb : List (ℚ × Particle)) (d : ℚ) (g : Particle),
      nb.Pairwise distLE →
      find_best_globule_for_crescent L c nb = some (d, g) →
      ∀ x ∈ survivors L c nb, x.2.area = g.area → d ≤ x.1) := by
  constructor
  · intro c m r
    unfold get_nearby_globules
    exact sortByDist_sorted _
  · intro c nb d g hsorted hfb x hx harea
    have hsur : (survivors L c nb).Pairwise distLE :=
      (hsorted.filter _).filter _
    rw [find_best_eq] at hfb
    rcases hval : survivors L c nb with _ | ⟨v, vs⟩
    · rw [hval] at hfb; cases hfb
    · rw [hval] at hfb
      have hmax : pyMaxFrom v vs = (d, g) := Option.some.inj hfb
      obtain ⟨pre, post, hdecomp, hpre, hpost⟩ := pyMaxFrom_first_max v vs
      rw [hmax] at hdecomp hpre
      rw [hval, hdecomp] at hsur
      rw [hval] at hx
      rw [hdecomp] at hx
      rcases List.mem_append.1 hx with hx | hx
      · exact absurd harea (ne_of_lt (hpre x hx))
      · rcases List.mem_cons.1 hx with rfl | hx
        · exact le_refl _
        · have := (List.pairwise_append.1 hsur).2.1
          have hd := (List.pairwise_cons.1 this).1 x hx
          exact hd

/-- C10: with the default search radius of one cell, every pair emitted by
`link_crescents_to_globules` joins a crescent to a globule whose clamped
grid cell is within one cell of the crescent's (unclamped) cell in each
axis: globules outside the 3×3 neighbourhood are never linked. -/
theorem linked_pair_cell_locality (L : GlobulatorLinker)
    (crescents globules : List Particle) (W H : ℕ) :
    ∀ lp ∈ (link_crescents_to_globules L crescents globules W H).1,
      |((globCell L (W / L.map_length + 1) (H / L.map_width + 1) lp.globule).1 : ℤ) -
          cellIndex L.map_length lp.crescent.x| ≤ 1 ∧
      |((globCell L (W / L.map_length + 1) (H / L.map_width + 1) lp.globule).2 : ℤ) -
          cellIndex L.map_width lp.crescent.y| ≤ 1 := by
  simp only [link_eq]
  refine loop_linked_prop L (create_spatial_map L globules W H)
    (fun lp =>
      |((globCell L (W / L.map_length + 1) (H / L.map_width + 1) lp.globule).1 : ℤ) -
          cellIndex L.map_length lp.crescent.x| ≤ 1 ∧
      |((globCell L (W / L.map_length + 1) (H / L.map_width + 1) lp.globule).2 : ℤ) -
          cellIndex L.map_width lp.crescent.y| ≤ 1) ?_ crescents
    ⟨[], [], []⟩ (by simp)
  intro used c d g hfb
  have hmem := (find_best_avail_not_used hfb).1
  obtain ⟨x, y, ⟨hx1, hx2⟩, ⟨hy1, hy2⟩, hcell, _⟩ := mem_get_nearby.1 hmem
  rw [create_spatial_map_cells] at hcell
  have hgc := (List.mem_filter.1 hcell).2
  rw [decide_eq_true_eq] at hgc
  have hx0 : (0 : ℤ) ≤ x := le_trans (le_max_left _ _) hx1
  have hy0 : (0 : ℤ) ≤ y := le_trans (le_max_left _ _) hy1
  have hxx : ((x.toNat : ℤ)) = x := Int.toNat_of_nonneg hx0
  have hyy : ((y.toNat : ℤ)) = y := Int.toNat_of_nonneg hy0
  rw [hgc]
  dsimp
  rw [hxx, hyy]
  constructor
  · rw [abs_le]
    constructor
    · have := le_trans hx2 (min_le_right _ _)
      omega
    · have := le_trans (le_max_right _ _) hx1
      omega
  · rw [abs_le]
    constructor
    · have := le_trans hy2 (min_le_right _ _)
      omega
    · have := le_trans (le_max_right _ _) hy1
      omega

theorem filter_avail_nil (l : List (ℚ × Particle)) :
    l.filter (fun dg => dg.2 ∉ ([] : List Particle)) = l := by
  apply List.filter_eq_self.2
  intro a _
  simp

/-- C5 (amended): if crescents `c1` and `c2` are each eligible for the
globule `g` and for no other globule (once `g` is used neither finds a
match), then processing `[c1, c2]` links `c1` to `g` and leaves `c2`
ambiguous, while `[c2, c1]` links `c2` to `g` and leaves `c1` ambiguous;
the used globule is never reclaimed by the later crescent. -/
theorem order_sensitivity (L : GlobulatorLinker) (globules : List Particle)
    (W H : ℕ) (c1 c2 g : Particle) (d1 d2 : ℚ)
    (h1 : find_best_globule_for_crescent L c1
        (get_nearby_globules L c1 (create_spatial_map L globules W H) 1) =
      some (d1, g))
    (h2 : find_best_globule_for_crescent L c2
        (get_nearby_globules L c2 (create_spatial_map L globules W H) 1) =
      some (d2, g))
    (h1' : find_best_globule_for_crescent L c1
        ((get_nearby_globules L c1 (create_spatial_map L globules W H) 1).filter
          (fun dg => dg.2 ∉ [g])) = none)
    (h2' : find_best_globule_for_crescent L c2
        ((get_nearby_globules L c2 (create_spatial_map L globules W H) 1).filter
          (fun dg => dg.2 ∉ [g])) = none) :
    link_crescents_to_globules L [c1, c2] globules W H =
      ([⟨c1, g, d1⟩], ⟨c2, "crescent"⟩ ::
        (globules.filter (fun x => x ∉ [g])).map (fun x => ⟨x, "globule"⟩)) ∧
    link_crescents_to_globules L [c2, c1] globules W H =
      ([⟨c2, g, d2⟩], ⟨c1, "crescent"⟩ ::
        (globules.filter (fun x => x ∉ [g])).map (fun x => ⟨x, "globule"⟩)) := by
  have e1 : linkStep L (create_spatial_map L globules W H) ⟨[], [], []⟩ c1 =
      ⟨[⟨c1, g, d1⟩], [], [g]⟩ := by
    rw [linkStep_eq]
    dsimp only
    rw [filter_avail_nil, h1]
    rfl
  have e2 : linkStep L (create_spatial_map L globules W H) ⟨[⟨c1, g, d1⟩], [], [g]⟩ c2 =
      ⟨[⟨c1, g, d1⟩], [⟨c2, "crescent"⟩], [g]⟩ := by
    rw [linkStep_eq]
    dsimp only
    rw [h2']
    rfl
  have e1' : linkStep L (create_spatial_map L globules W H) ⟨[], [], []⟩ c2 =
      ⟨[⟨c2, g, d2⟩], [], [g]⟩ := by
    rw [linkStep_eq]
    dsimp only
    rw [filter_avail_nil, h2]
    rfl
  have e2' : linkStep L (create_spatial_map L globules W H) ⟨[⟨c2, g, d2⟩], [], [g]⟩ c1 =
      ⟨[⟨c2, g, d2⟩], [⟨c1, "crescent"⟩], [g]⟩ := by
    rw [linkStep_eq]
    dsimp only
    rw [h1']
    rfl
  constructor
  · rw [link_eq]
    rw [List.foldl_cons, e1, List.foldl_cons, e2, List.foldl_nil]
    rfl
  · rw [link_eq]
    rw [List.foldl_cons, e1', List.foldl_cons, e2', List.foldl_nil]
    rfl

/-! ### Concrete instances for witnesses and counterexamples -/

/-- Linker with default 50×50 cells; `math.pi` interpreted as `3` and
`math.sqrt` as the identity, which the structural claims allow. -/
def testLinker : GlobulatorLinker := ⟨50, 50, 3, id⟩

def cresA : Particle := ⟨4, 4, 0, 0, 0⟩

def cresB : Particle := ⟨4, 0, 0, 0, 0⟩

def globBig : Particle := ⟨4, 2, 0, 0, 0⟩

def globBig2 : Particle := ⟨4, 3, 0, 0, 0⟩

def globSmall : Particle := ⟨2, 5, 0, 0, 0⟩

/-- C5 counterexample: `cresA` is eligible for `globBig` (its best match)
and also for `globSmall`; `cresB` is eligible only for `globBig`.  The
claim's hypotheses hold, and `[cresA, cresB]` behaves as claimed, but the
reversed order `[cresB, cresA]` links `cresA` to `globSmall` instead of
leaving it ambiguous, refuting the claim's reversed-order conclusion. -/
theorem order_sensitivity_counterexample :
    (find_best_globule_for_crescent testLinker cresA
        (get_nearby_globules testLinker cresA
          (create_spatial_map testLinker [globBig, globSmall] 100 100) 1) =
      some (4, globBig)) ∧
    (find_best_globule_for_crescent testLinker cresB
        (get_nearby_globules testLinker cresB
          (create_spatial_map testLinker [globBig, globSmall] 100 100) 1) =
      some (4, globBig)) ∧
    (find_best_globule_for_crescent testLinker cresB
        ((get_nearby_globules testLinker cresB
          (create_spatial_map testLinker [globBig, globSmall] 100 100) 1).filter
            (fun dg => dg.2 ∉ [globBig])) = none) ∧
    (link_crescents_to_globules testLinker [cresA, cresB]
        [globBig, globSmall] 100 100).1 = [⟨cresA, globBig, 4⟩] ∧
    (⟨cresB, "crescent"⟩ : AmbiguousParticle) ∈
      (link_crescents_to_globules testLinker [cresA, cresB]
        [globBig, globSmall] 100 100).2 ∧
    (link_crescents_to_globules testLinker [cresB, cresA]
        [globBig, globSmall] 100 100).1 =
      [⟨cresB, globBig, 4⟩, ⟨cresA, globSmall, 1⟩] ∧
    (⟨cresA, "crescent"⟩ : AmbiguousParticle) ∉
      (link_crescents_to_globules testLinker [cresB, cresA]
        [globBig, globSmall] 100 100).2 := by
  with_unfolding_all decide

/-- Witness for the amended C5 theorem at a concrete instance. -/
theorem order_sensitivity_witness :
    link_crescents_to_globules testLinker [cresA, cresB] [globBig] 100 100 =
      ([⟨cresA, globBig, 4⟩], ⟨cresB, "crescent"⟩ ::
        (([globBig].filter (fun x => x ∉ [globBig])).map
          (fun x => ⟨x, "globule"⟩))) ∧
    link_crescents_to_globules testLinker [cresB, cresA] [globBig] 100 100 =
      ([⟨cresB, globBig, 4⟩], ⟨cresA, "crescent"⟩ ::
        (([globBig].filter (fun x => x ∉ [globBig])).map
          (fun x => ⟨x, "globule"⟩))) :=
  order_sensitivity testLinker [globBig] 100 100 cresA cresB globBig 4 4
    (by with_unfolding_all decide) (by with_unfolding_all decide)
    (by with_unfolding_all decide) (by with_unfolding_all decide)

/-! ### The spatial map (C6) -/

/-- C6 counterexample: with the default 50×50 cells and a 1×1 image,
`create_spatial_map` builds a 1×1 grid, but the claimed dimension formula
`⌈W/cellWidth⌉ + 1` gives 2. -/
theorem spatial_map_dims_counterexample :
    (create_spatial_map testLinker [] 1 1).x_size = 1 ∧
      (⌈(1 : ℚ) / 50⌉ + 1 : ℤ) = 2 ∧ (1 : ℕ) ≠ 2 := by
  refine ⟨rfl, ?_, by decide⟩
  have h : (⌈(1 : ℚ) / 50⌉ : ℤ) = 1 := by
    rw [Int.ceil_eq_iff]
    norm_num
  rw [h]
  rfl

/-- C6 (amended): for positive cell sizes the grid built by
`create_spatial_map` has dimensions `⌊W/cellWidth⌋ + 1` by
`⌊H/cellHeight⌋ + 1` (floor, not ceiling), and every globule of the input
list appears in exactly the one cell given by its clamped floor cell
indices. -/
theorem spatial_map_spec (L : GlobulatorLinker) (globules : List Particle)
    (W H : ℕ) (_hw : 0 < L.map_length) (_hh : 0 < L.map_width) :
    (create_spatial_map L globules W H).x_size = W / L.map_length + 1 ∧
    (create_spatial_map L globules W H).y_size = H / L.map_width + 1 ∧
    ∀ g ∈ globules, ∀ i j : ℕ,
      (g ∈ (create_spatial_map L globules W H).cells i j ↔
        (i, j) = globCell L (W / L.map_length + 1) (H / L.map_width + 1) g) := by
  refine ⟨rfl, rfl, ?_⟩
  intro g hgmem i j
  rw [create_spatial_map_cells]
  simp only [List.mem_filter, decide_eq_true_eq]
  constructor
  · rintro ⟨_, h⟩
    exact h.symm
  · intro h
    exact ⟨hgmem, h.symm⟩

/-- Witness for the amended C6 theorem at a concrete instance. -/
theorem spatial_map_spec_witness :
    0 < testLinker.map_length ∧ 0 < testLinker.map_width ∧
    (create_spatial_map testLinker [globBig] 100 100).x_size =
      100 / testLinker.map_length + 1 ∧
    (create_spatial_map testLinker [globBig] 100 100).y_size =
      100 / testLinker.map_width + 1 ∧
    (globBig ∈ (create_spatial_map testLinker [globBig] 100 100).cells 0 0 ↔
      (0, 0) = globCell testLinker (100 / testLinker.map_length + 1)
        (100 / testLinker.map_width + 1) globBig) := by
  have h := spatial_map_spec testLinker [globBig] 100 100
    (by with_unfolding_all decide) (by with_unfolding_all decide)
  exact ⟨by with_unfolding_all decide, by with_unfolding_all decide,
    h.1, h.2.1, h.2.2 globBig (List.mem_singleton.2 rfl) 0 0⟩

/-! ### Ingestion of invalid geometry (C7) -/

/-- C7 counterexample: `ParticleData.__init__` accepts a record with
negative area and negative perimeter unchanged — no validation failure —
and `calculate_statistics` then silently produces a negative average
area. -/
theorem ingestion_accepts_invalid :
    (mkParticleData 3 (-1) 0 0 5).area = -1 ∧
    (mkParticleData 3 (-2) 0 0 (-5)).perimeter = -5 ∧
    (calculate_statistics
        [⟨mkParticleData 3 (-1) 0 0 5, mkParticleData 3 (-1) 0 0 5, 0⟩] 1 1
      ).average_crescent_area < 0 := by
  refine ⟨rfl, rfl, ?_⟩
  with_unfolding_all decide

/-- C7 (amended): the core performs no validation at ingestion:
`ParticleData.__init__` stores any given geometry verbatim (negative
areas and perimeters included), and downstream statistics computed from
such records can be negative. -/
theorem ingestion_no_validation :
    (∀ piQ area x y perimeter : ℚ,
      (mkParticleData piQ area x y perimeter).area = area ∧
      (mkParticleData piQ area x y perimeter).x = x ∧
      (mkParticleData piQ area x y perimeter).y = y ∧
      (mkParticleData piQ area x y perimeter).perimeter = perimeter) ∧
    (calculate_statistics
        [⟨mkParticleData 3 (-1) 0 0 5, mkParticleData 3 (-1) 0 0 5, 0⟩] 1 1
      ).average_crescent_area < 0 := by
  refine ⟨fun piQ area x y perimeter => ⟨rfl, rfl, rfl, rfl⟩, ?_⟩
  with_unfolding_all decide

/-! ### Statistics (C8) -/

/-- C8 counterexample: on the input with one linked pair but
`total_globules = 0`, `calculate_statistics` returns average areas of 0
through its zero-globule early return, although the pairs list is
non-empty and the arithmetic mean of the crescent areas over the pairs is
7. -/
theorem statistics_zero_globules_counterexample :
    (calculate_statistics [⟨⟨7, 0, 0, 0, 0⟩, ⟨9, 0, 0, 0, 0⟩, 0⟩] 0 5
      ).average_crescent_area = 0 ∧
    ([⟨⟨7, 0, 0, 0, 0⟩, ⟨9, 0, 0, 0, 0⟩, 0⟩] : List LinkedParticle) ≠ [] ∧
    ((([⟨⟨7, 0, 0, 0, 0⟩, ⟨9, 0, 0, 0, 0⟩, 0⟩] : List LinkedParticle).map
        (fun lp => lp.crescent.area)).sum /
      (([⟨⟨7, 0, 0, 0, 0⟩, ⟨9, 0, 0, 0, 0⟩, 0⟩] : List LinkedParticle).length : ℚ))
      = 7 ∧
    (0 : ℚ) ≠ 7 := by
  with_unfolding_all decide

/-- C8 (amended): `calculate_statistics` returns
`percent = 100·|pairs|/totalGlobules` when `totalGlobules > 0` and `0`
when `totalGlobules = 0` (no division error), and the average crescent
and globule areas are the arithmetic means over the pairs, except that
they are `0` when the pairs list is empty **or** `totalGlobules = 0` (the
zero-globule early return fixes all averages to 0). -/
theorem statistics_spec (lps : List LinkedParticle) (tg tc : ℕ) :
    ((calculate_statistics lps tg tc).globule_with_crescent_percent =
      if tg = 0 then 0 else 100 * (lps.length : ℚ) / (tg : ℚ)) ∧
    ((calculate_statistics lps tg tc).average_crescent_area =
      if tg = 0 ∨ lps = [] then 0
      else ((lps.map (fun lp => lp.crescent.area)).sum) / (lps.length : ℚ)) ∧
    ((calculate_statistics lps tg tc).average_globule_area =
      if tg = 0 ∨ lps = [] then 0
      else ((lps.map (fun lp => lp.globule.area)).sum) / (lps.length : ℚ)) := by
  unfold calculate_statistics
  by_cases htg : tg = 0
  · simp [htg]
  · by_cases hlps : lps = []
    · subst hlps
      simp [htg]
    · have hlen : 0 < lps.length := List.length_pos.2 hlps
      simp only [htg, if_neg, if_false, hlps, or_self, or_false]
      refine ⟨by ring, by rw [if_pos hlen], by rw [if_pos hlen]⟩

/-! ### Witnesses for the remaining claim theorems -/

instance (a b : ℚ × Particle) : Decidable (distLE a b) := by
  unfold distLE
  infer_instance

/-- Witness for C1 at a concrete instance. -/
theorem conservation_and_exclusivity_witness :
    ([cresB] : List Particle).Nodup ∧ ([globBig] : List Particle).Nodup ∧
    (link_crescents_to_globules testLinker [cresB] [globBig] 100 100).1.length +
        (link_crescents_to_globules testLinker [cresB] [globBig] 100 100).2.countP
          (fun a => a.type = "crescent") = 1 ∧
    (link_crescents_to_globules testLinker [cresB] [globBig] 100 100).1.length +
        (link_crescents_to_globules testLinker [cresB] [globBig] 100 100).2.countP
          (fun a => a.type = "globule") = 1 ∧
    (link_crescents_to_globules testLinker [cresB] [globBig] 100 100).1.countP
        (fun lp => lp.crescent = cresB) +
      (link_crescents_to_globules testLinker [cresB] [globBig] 100 100).2.countP
        (fun a => a.particle = cresB ∧ a.type = "crescent") = 1 ∧
    (link_crescents_to_globules testLinker [cresB] [globBig] 100 100).1.countP
        (fun lp => lp.globule = globBig) +
      (link_crescents_to_globules testLinker [cresB] [globBig] 100 100).2.countP
        (fun a => a.particle = globBig ∧ a.type = "globule") = 1 ∧
    ((link_crescents_to_globules testLinker [cresB] [globBig] 100 100).1.map
      (fun lp => lp.globule)).Nodup := by
  have h := conservation_and_exclusivity testLinker [cresB] [globBig] 100 100
    (by with_unfolding_all decide) (by with_unfolding_all decide)
  exact ⟨by with_unfolding_all decide, by with_unfolding_all decide, h.1, h.2.1,
    h.2.2.1 cresB (List.mem_singleton.2 rfl),
    h.2.2.2.1 globBig (List.mem_singleton.2 rfl), h.2.2.2.2⟩

/-- Witness for C2 at a concrete instance. -/
theorem linked_pair_radius_bound_witness :
    (⟨cresA, globBig, 4⟩ : LinkedParticle) ∈
      (link_crescents_to_globules testLinker [cresA] [globBig] 100 100).1 ∧
    (⟨cresA, globBig, 4⟩ : LinkedParticle).distance ≤
      3 * testLinker.sqrt
        ((⟨cresA, globBig, 4⟩ : LinkedParticle).crescent.area / testLinker.pi) :=
  ⟨by with_unfolding_all decide,
    linked_pair_radius_bound testLinker [cresA] [globBig] 100 100
      ⟨cresA, globBig, 4⟩ (by with_unfolding_all decide)⟩

/-- Witness for C3 at a concrete instance. -/
theorem linked_pair_area_floor_witness :
    (⟨cresA, globBig, 4⟩ : LinkedParticle) ∈
      (link_crescents_to_globules testLinker [cresA] [globBig] 100 100).1 ∧
    (⟨cresA, globBig, 4⟩ : LinkedParticle).globule.area ≥
      (0.25 : ℚ) * (⟨cresA, globBig, 4⟩ : LinkedParticle).crescent.area :=
  ⟨by with_unfolding_all decide,
    linked_pair_area_floor testLinker [cresA] [globBig] 100 100
      ⟨cresA, globBig, 4⟩ (by with_unfolding_all decide)⟩

/-- Witness for C4 at a concrete instance. -/
theorem find_best_globule_spec_witness :
    find_best_globule_for_crescent testLinker cresA
        [(1, globSmall), (4, globBig)] = some (4, globBig) ∧
    (4, globBig) ∈ survivors testLinker cresA [(1, globSmall), (4, globBig)] ∧
    (1, globSmall) ∈ survivors testLinker cresA [(1, globSmall), (4, globBig)] ∧
    globSmall.area ≤ globBig.area := by
  have h := (find_best_globule_spec testLinker cresA
      [(1, globSmall), (4, globBig)]).1 4 globBig (by with_unfolding_all decide)
  exact ⟨by with_unfolding_all decide, h.1, by with_unfolding_all decide,
    h.2 (1, globSmall) (by with_unfolding_all decide)⟩

/-- Witness for C9 at a concrete instance with an area tie. -/
theorem find_best_tie_break_witness :
    (get_nearby_globules testLinker cresA
      (create_spatial_map testLinker [globBig, globSmall] 100 100) 1).Pairwise
        distLE ∧
    ([((1 : ℚ), globBig), (2, globBig2)] : List (ℚ × Particle)).Pairwise distLE ∧
    find_best_globule_for_crescent testLinker cresA
      [(1, globBig), (2, globBig2)] = some (1, globBig) ∧
    (2, globBig2) ∈ survivors testLinker cresA [(1, globBig), (2, globBig2)] ∧
    globBig2.area = globBig.area ∧
    (1 : ℚ) ≤ (2 : ℚ) := by
  have hs : ([((1 : ℚ), globBig), (2, globBig2)] :
      List (ℚ × Particle)).Pairwise distLE := by
    with_unfolding_all decide
  have hf : find_best_globule_for_crescent testLinker cresA
      [(1, globBig), (2, globBig2)] = some (1, globBig) := by
    with_unfolding_all decide
  have hm : (2, globBig2) ∈ survivors testLinker cresA
      [(1, globBig), (2, globBig2)] := by
    with_unfolding_all decide
  have ha : ((2 : ℚ), globBig2).2.area = globBig.area := by
    with_unfolding_all decide
  exact ⟨(find_best_tie_break testLinker).1 cresA _ 1, hs, hf, hm, ha,
    (find_best_tie_break testLinker).2 cresA _ 1 globBig hs hf (2, globBig2) hm ha⟩

/-- Witness for C10 at a concrete instance. -/
theorem linked_pair_cell_locality_witness :
    (⟨cresA, globBig, 4⟩ : LinkedParticle) ∈
      (link_crescents_to_globules testLinker [cresA] [globBig] 100 100).1 ∧
    |((globCell testLinker (100 / testLinker.map_length + 1)
        (100 / testLinker.map_width + 1) globBig).1 : ℤ) -
      cellIndex testLinker.map_length cresA.x| ≤ 1 ∧
    |((globCell testLinker (100 / testLinker.map_length + 1)
        (100 / testLinker.map_width + 1) globBig).2 : ℤ) -
      cellIndex testLinker.map_width cresA.y| ≤ 1 := by
  have h := linked_pair_cell_locality testLinker [cresA] [globBig] 100 100
    ⟨cresA, globBig, 4⟩ (by with_unfolding_all decide)
  exact ⟨by with_unfolding_all decide, h.1, h.2⟩
